import Mathlib

set_option maxHeartbeats 1600000

/- Shallow embedding of the gh-update-checker repository
   (include/check_gh-update.hpp together with the CLI gh-update-checker.cpp).

   Modelling conventions:
   - C++ std::string and std::string_view are modelled as List Char.
   - The host int consumed by std::stoi is modelled as Nat together with an
     explicit range check against intMax = 2^31 - 1 (the width of int on all
     mainstream platforms); std::stoi throwing std::out_of_range is modelled
     as a failure of the numeric conversion.
   - Exceptions are modelled with Except, carrying the error taxonomy of the
     specification (InvalidVersionFormat, InvalidRepositoryURL, NetworkError,
     RemoteAPIError), each constructor attached to the corresponding throw
     site of the source and carrying the thrown message text.
   - The HTTP transport plus the JSON document parser are external
     collaborators (spec section 6); check_github_update receives them as one
     injected function from the fetched URL to either a transport failure
     message or a parsed JSON object exposing string-field lookup. -/

-- ---------------------------------------------------------
-- Characters, digits, stoi
-- ---------------------------------------------------------

/-- Character class test for the regex class of ASCII digits 0-9. -/
def isDigit (c : Char) : Bool := 48 ≤ c.toNat && c.toNat ≤ 57

/-- Numeric value of an all-digit capture, as std::stoi computes it. -/
def digitsVal (l : List Char) : Nat := l.foldl (fun a c => 10 * a + (c.toNat - 48)) 0

/-- Largest value representable in the host int consumed by std::stoi. -/
def intMax : Nat := 2147483647

/-- Error taxonomy of the specification, one constructor per kind, each
carrying the message text of the corresponding C++ exception. -/
inductive GhError where
  | invalidVersionFormat (msg : List Char)
  | invalidRepositoryURL (msg : List Char)
  | networkError (msg : List Char)
  | remoteAPIError (msg : List Char)
deriving DecidableEq

/-- The message carried by an error, i.e. what the C++ exception's what()
returns at the corresponding throw site. -/
def GhError.message : GhError → List Char
  | .invalidVersionFormat m => m
  | .invalidRepositoryURL m => m
  | .networkError m => m
  | .remoteAPIError m => m

/-- Message of std::out_of_range raised by std::stoi on an over-wide
numeral; the spec classifies this failure as InvalidVersionFormat. -/
def stoiErrMsg : List Char := ("stoi out of range").data

/-- std::stoi applied to an all-digit regex capture: the numeric value when
it fits the host int, an out-of-range failure otherwise. -/
def stoiDigits (l : List Char) : Except GhError Nat :=
  if digitsVal l ≤ intMax then .ok (digitsVal l)
  else .error (.invalidVersionFormat stoiErrMsg)

-- ---------------------------------------------------------
-- SemVer
-- ---------------------------------------------------------

/-- struct SemVer: the three version components (values of the host int that
the parser ever produces are non-negative, so Nat). -/
structure SemVer where
  major : Nat
  minor : Nat
  patch : Nat
deriving DecidableEq

/-- The defaulted three-way comparison of struct SemVer restricted to strict
less-than: lexicographic on (major, minor, patch) in declaration order. -/
def SemVer.ltb (a b : SemVer) : Bool :=
  if a.major < b.major then true
  else if b.major < a.major then false
  else if a.minor < b.minor then true
  else if b.minor < a.minor then false
  else decide (a.patch < b.patch)

/-- Greedy match of (d+)\.(d+)(?:\.(d+))? at the start of the input,
returning the three captures.  Greediness needs no backtracking here: the
digit class is disjoint from the literal dot, so each (d+) capture is the
maximal digit run and the optional patch group matches exactly when a dot
followed by a digit comes next. -/
def matchCore (l : List Char) : Option (List Char × List Char × Option (List Char)) :=
  let maj := l.takeWhile isDigit
  let r1 := l.dropWhile isDigit
  if maj.isEmpty then none
  else
    match r1 with
    | [] => none
    | c :: r2 =>
      if c = '.' then
        let minr := r2.takeWhile isDigit
        let r3 := r2.dropWhile isDigit
        if minr.isEmpty then none
        else
          match r3 with
          | [] => some (maj, minr, none)
          | d :: r4 =>
            if d = '.' then
              let pat := r4.takeWhile isDigit
              if pat.isEmpty then some (maj, minr, none)
              else some (maj, minr, some pat)
          else some (maj, minr, none)
      else none

/-- Match of the full pattern v?(d+)\.(d+)(?:\.(d+))? anchored at the start
of the input: an optional leading lowercase v is consumed when present
(backtracking to the no-v branch can never succeed there, because v is not a
digit). -/
def semverMatchAt (l : List Char) : Option (List Char × List Char × Option (List Char)) :=
  match l with
  | [] => none
  | c :: cs => if c = 'v' then matchCore cs else matchCore (c :: cs)

/-- std::regex_search with the SemVer pattern: try every start position from
the left and return the captures of the first match. -/
def semverSearch : List Char → Option (List Char × List Char × Option (List Char))
  | [] => none
  | c :: cs =>
    match semverMatchAt (c :: cs) with
    | some r => some r
    | none => semverSearch cs

/-- Message prefix of the invalid-SemVer exception in SemVer::parse. -/
def semverErrPfx : List Char := ("Invalid SemVer: ").data

/-- SemVer::parse: regex-search the input for the version pattern, then
convert the captures with std::stoi, defaulting the patch capture to 0 when
it is absent. -/
def SemVer.parse (v : List Char) : Except GhError SemVer :=
  match semverSearch v with
  | none => .error (.invalidVersionFormat (semverErrPfx ++ v))
  | some (maj, minr, patOpt) =>
    match stoiDigits maj with
    | .error e => .error e
    | .ok mj =>
      match stoiDigits minr with
      | .error e => .error e
      | .ok mi =>
        match patOpt with
        | none => .ok ⟨mj, mi, 0⟩
        | some pat =>
          match stoiDigits pat with
          | .error e => .error e
          | .ok pa => .ok ⟨mj, mi, pa⟩

-- ---------------------------------------------------------
-- Automatic GitHub URL to API URL conversion
-- ---------------------------------------------------------

/-- Substring-match helper: does the text start with the given pattern. -/
def hasPfx : List Char → List Char → Bool
  | [], _ => true
  | _ :: _, [] => false
  | p :: ps, c :: cs => if p = c then hasPfx ps cs else false

/-- std::string::find(pattern) != npos: does the pattern occur as a
contiguous substring anywhere in the text. -/
def containsSub (p : List Char) : List Char → Bool
  | [] => hasPfx p []
  | c :: cs => hasPfx p (c :: cs) || containsSub p cs

/-- std::string::ends_with: does the text end with the given pattern. -/
def hasSfx (s l : List Char) : Bool := hasPfx s.reverse l.reverse

/-- Strip the given pattern from the front of the text, returning the
remainder on success. -/
def dropPfx : List Char → List Char → Option (List Char)
  | [], l => some l
  | _ :: _, [] => none
  | p :: ps, c :: cs => if p = c then dropPfx ps cs else none

/-- The API host marker tested with std::string::find. -/
def apiHost : List Char := ("api.github.com").data

/-- The literal head of the web-URL regex. -/
def ghPfx : List Char := ("https://github.com/").data

/-- Match of the pattern https://github\.com/([^\/]+)/([^\/]+) anchored at
the start of the input, returning the owner and repo captures.  Both
captures are maximal runs of non-slash characters; greediness needs no
backtracking because the class excludes the literal slash that follows. -/
def ghMatchAt (l : List Char) : Option (List Char × List Char) :=
  match dropPfx ghPfx l with
  | none => none
  | some rest =>
    let owner := rest.takeWhile (fun c => !(c = '/'))
    let r1 := rest.dropWhile (fun c => !(c = '/'))
    if owner.isEmpty then none
    else
      match r1 with
      | [] => none
      | c :: r2 =>
        if c = '/' then
          let repo := r2.takeWhile (fun c => !(c = '/'))
          if repo.isEmpty then none else some (owner, repo)
        else none

/-- std::regex_search with the web-URL pattern: try every start position
from the left and return the captures of the first match. -/
def ghSearch : List Char → Option (List Char × List Char)
  | [] => none
  | c :: cs =>
    match ghMatchAt (c :: cs) with
    | some r => some r
    | none => ghSearch cs

/-- Message prefix of the invalid-URL exception in to_github_api_url. -/
def invalidUrlPfx : List Char := ("Invalid GitHub URL: ").data

/-- The fixed pieces of the API URL template. -/
def apiRoot : List Char := ("https://api.github.com/repos/").data

/-- Tail of the API URL template. -/
def relTail : List Char := ("/releases/latest").data

/-- The .git suffix stripped from the repo capture. -/
def gitSfx : List Char := (".git").data

/-- to_github_api_url: an input containing the API host marker is returned
unchanged; otherwise the web-URL pattern is searched for, a trailing .git is
stripped from the repo capture, and the fixed API template is filled in;
anything else throws the invalid-URL error. -/
def to_github_api_url (url : List Char) : Except GhError (List Char) :=
  if containsSub apiHost url then .ok url
  else
    match ghSearch url with
    | none => .error (.invalidRepositoryURL (invalidUrlPfx ++ url))
    | some (owner, repo) =>
      let repo2 := if hasSfx gitSfx repo then repo.take (repo.length - 4) else repo
      .ok (apiRoot ++ owner ++ ("/").data ++ repo2 ++ relTail)

-- ---------------------------------------------------------
-- JSON collaborator and UpdateInfo
-- ---------------------------------------------------------

/-- A JSON field value as far as the checker inspects it: a string, or
anything else. -/
inductive JVal where
  | jstr (s : List Char)
  | jother
deriving DecidableEq

/-- The parsed JSON object exposed by the external JSON collaborator:
a field list keyed by name (spec section 6 specifies the collaborator only
through string-field lookup). -/
structure JsonDoc where
  fields : List (List Char × JVal)
deriving DecidableEq

/-- First field with the given name, if any. -/
def JsonDoc.find (j : JsonDoc) (k : List Char) : Option JVal :=
  go j.fields
where
  go : List (List Char × JVal) → Option JVal
    | [] => none
    | (k2, v) :: rest => if k2 = k then some v else go rest

/-- json.contains(key). -/
def JsonDoc.containsKey (j : JsonDoc) (k : List Char) : Bool := (j.find k).isSome

/-- json[key].is_string(), false when the key is absent. -/
def JsonDoc.isStr (j : JsonDoc) (k : List Char) : Bool :=
  match j.find k with
  | some (.jstr _) => true
  | _ => false

/-- json[key].get<std::string>(), only reached when isStr holds. -/
def JsonDoc.getStrVal (j : JsonDoc) (k : List Char) : List Char :=
  match j.find k with
  | some (.jstr s) => s
  | _ => []

/-- struct UpdateInfo: the result of a completed check. -/
structure UpdateInfo where
  hasUpdate : Bool
  latestVersion : List Char
deriving DecidableEq

-- ---------------------------------------------------------
-- Synchronous version checking function
-- ---------------------------------------------------------

/-- The tag_name key. -/
def tagKey : List Char := ("tag_name").data

/-- The message key. -/
def msgKey : List Char := ("message").data

/-- Message prefix of the remote-API-error exception. -/
def apiErrPfx : List Char := ("GitHub API error: ").data

/-- Message of the no-valid-tag exception. -/
def noTagMsg : List Char := ("GitHub API returned no valid tag_name").data

/-- check_github_update, instrumented: the second component records whether
the injected fetch collaborator (http_get composed with the JSON document
parser, per the collaborator boundary of spec section 6) was invoked.  The
source fetches as soon as the URL normalizes, extracts the tag, and only
then parses the local version followed by the remote tag. -/
def check_github_update_run (fetch : List Char → Except (List Char) JsonDoc)
    (repoUrl localVersion : List Char) : Except GhError UpdateInfo × Bool :=
  match to_github_api_url repoUrl with
  | .error e => (.error e, false)
  | .ok apiUrl =>
    match fetch apiUrl with
    | .error msg => (.error (.networkError msg), true)
    | .ok json =>
      if !(json.containsKey tagKey) || !(json.isStr tagKey) then
        if json.containsKey msgKey && json.isStr msgKey then
          (.error (.remoteAPIError (apiErrPfx ++ json.getStrVal msgKey)), true)
        else
          (.error (.remoteAPIError noTagMsg), true)
      else
        let latest := json.getStrVal tagKey
        match SemVer.parse localVersion with
        | .error e => (.error e, true)
        | .ok localv =>
          match SemVer.parse latest with
          | .error e => (.error e, true)
          | .ok remotev =>
            (.ok ⟨SemVer.ltb localv remotev, latest⟩, true)

/-- check_github_update: the returned result of the instrumented run. -/
def check_github_update (fetch : List Char → Except (List Char) JsonDoc)
    (repoUrl localVersion : List Char) : Except GhError UpdateInfo :=
  (check_github_update_run fetch repoUrl localVersion).1

-- ---------------------------------------------------------
-- CLI (gh-update-checker.cpp main)
-- ---------------------------------------------------------

/-- Observable outcome of one CLI run: exit code and the lines written to
the two streams. -/
structure CliResult where
  exitCode : Nat
  stdoutLines : List (List Char)
  stderrLines : List (List Char)
deriving DecidableEq

/-- The usage text printed on an argument-count error. -/
def usageLines : List (List Char) :=
  [ ("Usage: gh-update-checker <repo-api-url> <local-version>").data,
    ("Example:").data,
    ("  gh-update-checker https://api.github.com/repos/nlohmann/json/releases/latest 3.11.2").data ]

/-- Prefix of the error line printed on a failed check. -/
def errPfx : List Char := ("Error: ").data

/-- main of gh-update-checker.cpp over the positional arguments (argv
without the program name; argc < 3 is fewer than two positional
arguments). -/
def cliMain (fetch : List Char → Except (List Char) JsonDoc)
    (args : List (List Char)) : CliResult :=
  match args with
  | repo :: localv :: _ =>
    match check_github_update fetch repo localv with
    | .ok info =>
      { exitCode := if info.hasUpdate then 2 else 0
        stdoutLines :=
          [ ("Local version:  ").data ++ localv,
            ("Remote version: ").data ++ info.latestVersion,
            ("Update:         ").data ++ (if info.hasUpdate then ("YES").data else ("NO").data) ]
        stderrLines := [] }
    | .error e =>
      { exitCode := 3, stdoutLines := [], stderrLines := [errPfx ++ e.message] }
  | _ => { exitCode := 1, stdoutLines := [], stderrLines := usageLines }

-- ---------------------------------------------------------
-- Helper lemmas on the string primitives
-- ---------------------------------------------------------

/-- A pattern matches at the front of itself followed by anything. -/
theorem hasPfx_self (p l : List Char) : hasPfx p (p ++ l) = true := by
  induction p with
  | nil => rfl
  | cons c cs ih => simp [hasPfx, ih]

/-- A front match survives appending to the text. -/
theorem hasPfx_ext (p : List Char) :
    ∀ a b, hasPfx p a = true → hasPfx p (a ++ b) = true := by
  induction p with
  | nil => intro a b _; rfl
  | cons c cs ih =>
    intro a b h
    cases a with
    | nil => exact absurd h (by simp [hasPfx])
    | cons x xs =>
      simp only [List.cons_append, hasPfx] at h ⊢
      split at h
      · next hc => rw [if_pos hc]; exact ih xs b h
      · exact absurd h (by simp)

/-- The empty pattern occurs in every text. -/
theorem containsSub_nil_pat (l : List Char) : containsSub [] l = true := by
  cases l <;> simp [containsSub, hasPfx]

/-- An occurrence survives appending to the text. -/
theorem containsSub_ext (p a b : List Char) (h : containsSub p a = true) :
    containsSub p (a ++ b) = true := by
  induction a with
  | nil =>
    cases p with
    | nil => simpa using containsSub_nil_pat b
    | cons q qs => exact absurd h (by simp [containsSub, hasPfx])
  | cons x xs ih =>
    simp only [containsSub, List.cons_append, Bool.or_eq_true] at h ⊢
    rcases h with h1 | h2
    · exact Or.inl (by simpa [List.cons_append] using hasPfx_ext p (x :: xs) b h1)
    · exact Or.inr (ih h2)

/-- Stripping a pattern from the front of itself followed by anything. -/
theorem dropPfx_self (p l : List Char) : dropPfx p (p ++ l) = some l := by
  induction p with
  | nil => rfl
  | cons c cs ih => simp [dropPfx, ih]

/-- A text ends with any pattern appended to it. -/
theorem hasSfx_append_self (s r : List Char) : hasSfx s (r ++ s) = true := by
  unfold hasSfx
  rw [List.reverse_append]
  exact hasPfx_self s.reverse r.reverse

/-- takeWhile keeps a text all of whose characters satisfy the test. -/
theorem takeWhile_all_of (p : Char → Bool) (l : List Char)
    (h : ∀ c ∈ l, p c = true) : l.takeWhile p = l := by
  induction l with
  | nil => rfl
  | cons x xs ih =>
    have hx := h x (by simp)
    simp only [List.takeWhile_cons, hx, if_true]
    rw [ih (fun c hc => h c (by simp [hc]))]

/-- dropWhile drops a text all of whose characters satisfy the test. -/
theorem dropWhile_all_of (p : Char → Bool) (l : List Char)
    (h : ∀ c ∈ l, p c = true) : l.dropWhile p = [] := by
  induction l with
  | nil => rfl
  | cons x xs ih =>
    have hx := h x (by simp)
    simp only [List.dropWhile_cons, hx, if_true]
    exact ih (fun c hc => h c (by simp [hc]))

/-- takeWhile and dropWhile split an append whose left part passes the test
throughout and whose right part opens with a failing character. -/
theorem takeWhile_append_of (p : Char → Bool) (a b : List Char)
    (ha : ∀ c ∈ a, p c = true) (hb : ∀ c cs, b = c :: cs → p c = false) :
    (a ++ b).takeWhile p = a ∧ (a ++ b).dropWhile p = b := by
  induction a with
  | nil =>
    cases b with
    | nil => exact ⟨rfl, rfl⟩
    | cons c cs =>
      have hc := hb c cs rfl
      constructor <;> simp [List.takeWhile_cons, List.dropWhile_cons, hc]
  | cons x xs ih =>
    have hx := ha x (by simp)
    have ih2 := ih (fun c hc => ha c (by simp [hc]))
    constructor <;>
      simp [List.cons_append, List.takeWhile_cons, List.dropWhile_cons, hx, ih2.1, ih2.2]

/-- Taking the length of the left part of an append returns it. -/
theorem take_length_append (a b : List Char) : (a ++ b).take a.length = a := by
  induction a with
  | nil => rfl
  | cons x xs ih => simp [List.cons_append, ih]

/-- The search step: a match at the first position is the search result. -/
theorem ghSearch_of_matchAt (l : List Char) (res : List Char × List Char)
    (hne : l ≠ []) (h : ghMatchAt l = some res) : ghSearch l = some res := by
  obtain ⟨c, cs, rfl⟩ := List.exists_cons_of_ne_nil hne
  simp only [ghSearch, h]

/-- The search step for the SemVer pattern. -/
theorem semverSearch_of_matchAt (l : List Char)
    (res : List Char × List Char × Option (List Char))
    (hne : l ≠ []) (h : semverMatchAt l = some res) : semverSearch l = some res := by
  obtain ⟨c, cs, rfl⟩ := List.exists_cons_of_ne_nil hne
  simp only [semverSearch, h]

/-- A digit character is not the letter v. -/
theorem isDigit_ne_v {c : Char} (h : isDigit c = true) : ¬ c = 'v' := by
  intro hc
  subst hc
  exact absurd h (by decide)

/-- A string-valued field yields its string through find. -/
theorem JsonDoc.isStr_find (j : JsonDoc) (k : List Char)
    (h : JsonDoc.isStr j k = true) : ∃ s, JsonDoc.find j k = some (.jstr s) := by
  unfold JsonDoc.isStr at h
  cases hf : j.find k with
  | none => rw [hf] at h; exact absurd h (by simp)
  | some v =>
    cases v with
    | jstr s => exact ⟨s, rfl⟩
    | jother => rw [hf] at h; exact absurd h (by simp)

/-- A string-valued field is in particular present. -/
theorem JsonDoc.containsKey_of_isStr (j : JsonDoc) (k : List Char)
    (h : JsonDoc.isStr j k = true) : JsonDoc.containsKey j k = true := by
  obtain ⟨s, hf⟩ := JsonDoc.isStr_find j k h
  unfold JsonDoc.containsKey
  rw [hf]
  rfl

/-- getStrVal returns the string found at a string-valued field. -/
theorem JsonDoc.getStrVal_eq (j : JsonDoc) (k s : List Char)
    (h : JsonDoc.find j k = some (.jstr s)) : JsonDoc.getStrVal j k = s := by
  unfold JsonDoc.getStrVal
  rw [h]

/-- The boolean strict comparison agrees with the lexicographic strict order
on (major, minor, patch). -/
theorem SemVer.ltb_iff (a b : SemVer) :
    SemVer.ltb a b = true ↔
      (a.major < b.major ∨ (a.major = b.major ∧
        (a.minor < b.minor ∨ (a.minor = b.minor ∧ a.patch < b.patch)))) := by
  unfold SemVer.ltb
  repeat' split
  all_goals simp_all
  all_goals omega

-- ---------------------------------------------------------
-- Decimal numerals
-- ---------------------------------------------------------

/-- The decimal digit character of a value below ten (anything above
nine, never reached from natDigits, maps to the last digit). -/
def digitChar (d : Nat) : Char :=
  if d = 0 then '0' else if d = 1 then '1' else if d = 2 then '2'
  else if d = 3 then '3' else if d = 4 then '4' else if d = 5 then '5'
  else if d = 6 then '6' else if d = 7 then '7' else if d = 8 then '8' else '9'

/-- The decimal numeral of a natural number, most significant digit
first: the string "M" of the specification's version grammar. -/
def natDigits (n : Nat) : List Char :=
  if _h : n < 10 then [digitChar n]
  else natDigits (n / 10) ++ [digitChar (n % 10)]
decreasing_by exact Nat.div_lt_self (by omega) (by omega)

/-- Every digit character passes the digit class test. -/
theorem digitChar_isDigit (d : Nat) : isDigit (digitChar d) = true := by
  unfold digitChar
  repeat' split
  all_goals decide

/-- The digit character of a value below ten decodes back to it. -/
theorem digitChar_val (d : Nat) (h : d < 10) : (digitChar d).toNat - 48 = d := by
  interval_cases d <;> decide

/-- A decimal numeral is never empty. -/
theorem natDigits_ne_nil (n : Nat) : natDigits n ≠ [] := by
  rw [natDigits]
  split <;> simp

/-- A decimal numeral consists of digit characters. -/
theorem natDigits_all (n : Nat) : ∀ c ∈ natDigits n, isDigit c = true := by
  induction n using Nat.strong_induction_on with
  | _ n ih =>
    rw [natDigits]
    split
    · intro c hc
      rw [List.mem_singleton] at hc
      subst hc
      exact digitChar_isDigit n
    · next h =>
      intro c hc
      rw [List.mem_append] at hc
      rcases hc with hc | hc
      · exact ih (n / 10) (Nat.div_lt_self (by omega) (by omega)) c hc
      · rw [List.mem_singleton] at hc
        subst hc
        exact digitChar_isDigit (n % 10)

/-- Appending one character multiplies the decoded value by ten and adds
the character's digit value. -/
theorem digitsVal_app_one (a : List Char) (c : Char) :
    digitsVal (a ++ [c]) = 10 * digitsVal a + (c.toNat - 48) := by
  unfold digitsVal
  rw [List.foldl_append]
  rfl

/-- std::stoi decodes the decimal numeral of n back to n. -/
theorem digitsVal_natDigits (n : Nat) : digitsVal (natDigits n) = n := by
  induction n using Nat.strong_induction_on with
  | _ n ih =>
    rw [natDigits]
    split
    · next h =>
      show digitsVal [digitChar n] = n
      have hv := digitChar_val n h
      simp only [digitsVal, List.foldl]
      omega
    · next h =>
      rw [digitsVal_app_one, ih (n / 10) (Nat.div_lt_self (by omega) (by omega)),
        digitChar_val (n % 10) (Nat.mod_lt _ (by omega))]
      omega

-- ---------------------------------------------------------
-- Behaviour of the SemVer regex search on numeral inputs
-- ---------------------------------------------------------

/-- The SemVer search on digits-dot-digits captures the two digit runs and
no patch. -/
theorem semverSearch_digits2 (a b : List Char)
    (hA : a ≠ []) (ha : ∀ c ∈ a, isDigit c = true)
    (hB : b ≠ []) (hb : ∀ c ∈ b, isDigit c = true) :
    semverSearch (a ++ '.' :: b) = some (a, b, none) := by
  have hsp := takeWhile_append_of isDigit a ('.' :: b) ha
    (by intro c cs hcc; injection hcc with h1 _; subst h1; decide)
  have hm : matchCore (a ++ '.' :: b) = some (a, b, none) := by
    unfold matchCore
    rw [hsp.1, hsp.2]
    obtain ⟨y, ys, rfl⟩ := List.exists_cons_of_ne_nil hB
    simp only [List.isEmpty_eq_true, hA, if_false, if_pos rfl,
      takeWhile_all_of isDigit (y :: ys) hb, dropWhile_all_of isDigit (y :: ys) hb]
    simp
  obtain ⟨x, xs, rfl⟩ := List.exists_cons_of_ne_nil hA
  refine semverSearch_of_matchAt _ _ (by simp) ?_
  rw [List.cons_append]
  have hred : ∀ t : List Char, semverMatchAt (x :: t) =
      if x = 'v' then matchCore t else matchCore (x :: t) := fun t => rfl
  rw [hred, if_neg (isDigit_ne_v (ha x (by simp))), ← List.cons_append]
  exact hm

/-- The SemVer search on digits-dot-digits-dot-digits captures all three
digit runs. -/
theorem semverSearch_digits3 (a b c : List Char)
    (hA : a ≠ []) (ha : ∀ d ∈ a, isDigit d = true)
    (hB : b ≠ []) (hb : ∀ d ∈ b, isDigit d = true)
    (hC : c ≠ []) (hc : ∀ d ∈ c, isDigit d = true) :
    semverSearch (a ++ '.' :: (b ++ '.' :: c)) = some (a, b, some c) := by
  have hsp := takeWhile_append_of isDigit a ('.' :: (b ++ '.' :: c)) ha
    (by intro d ds hcc; injection hcc with h1 _; subst h1; decide)
  have hsp2 := takeWhile_append_of isDigit b ('.' :: c) hb
    (by intro d ds hcc; injection hcc with h1 _; subst h1; decide)
  have hm : matchCore (a ++ '.' :: (b ++ '.' :: c)) = some (a, b, some c) := by
    unfold matchCore
    rw [hsp.1, hsp.2]
    simp only [List.isEmpty_eq_true, hA, if_false, if_pos rfl, hsp2.1, hsp2.2, hB,
      takeWhile_all_of isDigit c hc]
    simp [hC]
  obtain ⟨x, xs, rfl⟩ := List.exists_cons_of_ne_nil hA
  refine semverSearch_of_matchAt _ _ (by simp) ?_
  rw [List.cons_append]
  have hred : ∀ t : List Char, semverMatchAt (x :: t) =
      if x = 'v' then matchCore t else matchCore (x :: t) := fun t => rfl
  rw [hred, if_neg (isDigit_ne_v (ha x (by simp))), ← List.cons_append]
  exact hm

-- ---------------------------------------------------------
-- Concrete fixtures shared by the witnesses
-- ---------------------------------------------------------

/-- A concrete web repository URL. -/
def ghUrlOR : List Char := ("https://github.com/o/r").data

/-- The canonical API URL of the concrete repository. -/
def apiUrlOR : List Char := ("https://api.github.com/repos/o/r/releases/latest").data

/-- A concrete remote tag. -/
def tag110 : List Char := ("1.1.0").data

/-- A concrete local version below the remote tag. -/
def local100 : List Char := ("1.0.0").data

/-- A concrete local version equal to the remote tag. -/
def local110 : List Char := ("1.1.0").data

/-- A local version containing no digits-dot-digits pattern. -/
def notAVersion : List Char := ("not-a-version").data

/-- A response object carrying only the remote tag. -/
def jsonTag110 : JsonDoc := ⟨[(tagKey, .jstr tag110)]⟩

/-- A fetch collaborator that always succeeds with the tag response. -/
def fetchTag110 : List Char → Except (List Char) JsonDoc := fun _ => .ok jsonTag110

/-- A fetch collaborator that always fails at the transport. -/
def fetchNetFail : List Char → Except (List Char) JsonDoc :=
  fun _ => .error (("HTTP request failed").data)

/-- A response object carrying only a diagnostic message. -/
def jsonMsgNF : JsonDoc := ⟨[(msgKey, .jstr (("Not Found").data))]⟩

/-- A fetch collaborator that always succeeds with the message-only
response. -/
def fetchMsgNF : List Char → Except (List Char) JsonDoc := fun _ => .ok jsonMsgNF

/-- A response object with neither a tag nor a message field. -/
def jsonEmpty : JsonDoc := ⟨[]⟩

/-- A fetch collaborator that always succeeds with the empty response. -/
def fetchEmpty : List Char → Except (List Char) JsonDoc := fun _ => .ok jsonEmpty

-- ---------------------------------------------------------
-- Claim C4
-- ---------------------------------------------------------

/-- C4: to_github_api_url is idempotent — whenever it succeeds, running it
again on its output returns that output unchanged — and every input that
already contains the API host substring is returned unchanged. -/
theorem to_github_api_url_idem :
    (∀ x y, to_github_api_url x = .ok y → to_github_api_url y = .ok y) ∧
    (∀ x, containsSub apiHost x = true → to_github_api_url x = .ok x) := by
  have part2 : ∀ x, containsSub apiHost x = true → to_github_api_url x = .ok x := by
    intro x hx
    unfold to_github_api_url
    rw [if_pos hx]
  refine ⟨?_, part2⟩
  intro x y h
  unfold to_github_api_url at h
  by_cases hx : containsSub apiHost x = true
  · rw [if_pos hx] at h
    injection h with h
    subst h
    exact part2 x hx
  · rw [if_neg hx] at h
    cases hg : ghSearch x with
    | none => rw [hg] at h; exact absurd h (by simp)
    | some pr =>
      obtain ⟨ow, rep⟩ := pr
      rw [hg] at h
      simp only [] at h
      injection h with h
      subst h
      exact part2 _ (containsSub_ext apiHost apiRoot _ (by decide))

/-- Witness for C4 at concrete inputs: the output of normalizing the web
URL is a fixed point, and an API-host input is returned unchanged. -/
theorem to_github_api_url_idem_witness :
    to_github_api_url apiUrlOR = .ok apiUrlOR ∧
    to_github_api_url (("https://api.github.com/repos/a/b/releases/latest").data) =
      .ok (("https://api.github.com/repos/a/b/releases/latest").data) :=
  ⟨to_github_api_url_idem.1 ghUrlOR apiUrlOR (by rfl),
   to_github_api_url_idem.2 (("https://api.github.com/repos/a/b/releases/latest").data)
     (by decide)⟩

-- ---------------------------------------------------------
-- Claim C6
-- ---------------------------------------------------------

/-- C6: when the first matched numeric component (the major capture of the
regex search) exceeds the host int range, SemVer::parse fails with the
InvalidVersionFormat numeric-conversion failure instead of truncating. -/
theorem parse_major_overflow (v maj minr : List Char) (patOpt : Option (List Char))
    (h : semverSearch v = some (maj, minr, patOpt))
    (ho : intMax < digitsVal maj) :
    SemVer.parse v = .error (.invalidVersionFormat stoiErrMsg) := by
  have hs : stoiDigits maj = Except.error (GhError.invalidVersionFormat stoiErrMsg) := by
    unfold stoiDigits
    rw [if_neg (by omega)]
  unfold SemVer.parse
  rw [h]
  simp [hs]

/-- Witness for C6 at the twenty-nines input from the specification. -/
theorem parse_major_overflow_witness :
    SemVer.parse (("99999999999999999999.0.0").data) =
      .error (.invalidVersionFormat stoiErrMsg) :=
  parse_major_overflow (("99999999999999999999.0.0").data)
    (("99999999999999999999").data) (("0").data) (some (("0").data))
    (by rfl) (by decide)

-- ---------------------------------------------------------
-- Claim C8
-- ---------------------------------------------------------

/-- C8: an input that neither contains the API host substring nor has any
substring matching the web-URL pattern fails with InvalidRepositoryURL, and
a check on it fails the same way with the fetch collaborator never
invoked. -/
theorem to_github_api_url_invalid_input
    (fetch : List Char → Except (List Char) JsonDoc) (url localVersion : List Char)
    (h1 : containsSub apiHost url = false)
    (h2 : ghSearch url = none) :
    to_github_api_url url = .error (.invalidRepositoryURL (invalidUrlPfx ++ url)) ∧
    (check_github_update_run fetch url localVersion).1 =
      .error (.invalidRepositoryURL (invalidUrlPfx ++ url)) ∧
    (check_github_update_run fetch url localVersion).2 = false := by
  have hu : to_github_api_url url = .error (.invalidRepositoryURL (invalidUrlPfx ++ url)) := by
    unfold to_github_api_url
    rw [if_neg (by simp [h1]), h2]
  refine ⟨hu, ?_, ?_⟩ <;>
    · unfold check_github_update_run
      rw [hu]

/-- Witness for C8 at the not-github host from the specification. -/
theorem to_github_api_url_invalid_input_witness :
    to_github_api_url (("https://not-github.example/o/r").data) =
      .error (.invalidRepositoryURL (invalidUrlPfx ++ (("https://not-github.example/o/r").data))) ∧
    (check_github_update_run fetchTag110 (("https://not-github.example/o/r").data) local100).1 =
      .error (.invalidRepositoryURL (invalidUrlPfx ++ (("https://not-github.example/o/r").data))) ∧
    (check_github_update_run fetchTag110 (("https://not-github.example/o/r").data) local100).2 =
      false :=
  to_github_api_url_invalid_input fetchTag110 (("https://not-github.example/o/r").data)
    local100 (by decide) (by decide)

-- ---------------------------------------------------------
-- Inversion of a successful check (shared by C1 and C10)
-- ---------------------------------------------------------

/-- Inversion of a successful check: the normalized URL, the fetched JSON
object, the extracted tag string and the two version parses all exist, the
raw tag is returned unchanged, and hasUpdate is the boolean strict
comparison of the parsed versions. -/
theorem check_ok_inversion (fetch : List Char → Except (List Char) JsonDoc)
    (repoUrl localVersion : List Char) (info : UpdateInfo)
    (h : check_github_update fetch repoUrl localVersion = .ok info) :
    ∃ apiUrl json tag localv remotev,
      to_github_api_url repoUrl = .ok apiUrl ∧
      fetch apiUrl = .ok json ∧
      JsonDoc.find json tagKey = some (.jstr tag) ∧
      info.latestVersion = tag ∧
      SemVer.parse localVersion = .ok localv ∧
      SemVer.parse tag = .ok remotev ∧
      info.hasUpdate = SemVer.ltb localv remotev := by
  unfold check_github_update check_github_update_run at h
  split at h
  next e heq => simp at h
  next apiUrl heq =>
    split at h
    next m heq2 => simp at h
    next json heq2 =>
      split at h
      · split at h
        · simp at h
        · simp at h
      · next hc =>
        have hstr : JsonDoc.isStr json tagKey = true := by
          cases hb : JsonDoc.isStr json tagKey with
          | true => rfl
          | false => exact absurd (by rw [hb]; simp) hc
        obtain ⟨tag, hfind⟩ := JsonDoc.isStr_find json tagKey hstr
        have hget : JsonDoc.getStrVal json tagKey = tag :=
          JsonDoc.getStrVal_eq json tagKey tag hfind
        rw [hget] at h
        dsimp only [] at h
        split at h
        next e heq3 => simp at h
        next localv heq3 =>
          split at h
          next e heq4 => simp at h
          next remotev heq4 =>
            simp only [Prod.fst] at h
            injection h with h
            subst h
            exact ⟨apiUrl, json, tag, localv, remotev, heq, heq2, hfind, rfl, heq3, heq4, rfl⟩

/-- A string accepted by the version parser is non-empty. -/
theorem parse_ok_ne_nil (v : List Char) (sv : SemVer)
    (h : SemVer.parse v = .ok sv) : v ≠ [] := by
  intro hv
  subst hv
  simp [SemVer.parse, semverSearch] at h

-- ---------------------------------------------------------
-- Claim C1
-- ---------------------------------------------------------

/-- C1: every successfully completed check returns hasUpdate true exactly
when the parsed remote tag strictly exceeds the parsed local version in the
lexicographic (major, minor, patch) order, and returns the raw tag string
extracted from the response as latestVersion. -/
theorem check_github_update_ok_spec (fetch : List Char → Except (List Char) JsonDoc)
    (repoUrl localVersion : List Char) (info : UpdateInfo)
    (h : check_github_update fetch repoUrl localVersion = .ok info) :
    ∃ apiUrl json tag localv remotev,
      to_github_api_url repoUrl = .ok apiUrl ∧
      fetch apiUrl = .ok json ∧
      JsonDoc.find json tagKey = some (.jstr tag) ∧
      info.latestVersion = tag ∧
      SemVer.parse localVersion = .ok localv ∧
      SemVer.parse tag = .ok remotev ∧
      (info.hasUpdate = true ↔
        (localv.major < remotev.major ∨ (localv.major = remotev.major ∧
          (localv.minor < remotev.minor ∨ (localv.minor = remotev.minor ∧
            localv.patch < remotev.patch))))) := by
  obtain ⟨apiUrl, json, tag, localv, remotev, h1, h2, h3, h4, h5, h6, h7⟩ :=
    check_ok_inversion fetch repoUrl localVersion info h
  exact ⟨apiUrl, json, tag, localv, remotev, h1, h2, h3, h4, h5, h6,
    by rw [h7]; exact SemVer.ltb_iff localv remotev⟩

/-- Witness for C1: remote tag 1.1.0 against local 1.0.0 completes with
hasUpdate true, the same tag against the equal local 1.1.0 completes with
hasUpdate false, and the theorem instantiates at the first run. -/
theorem check_github_update_ok_spec_witness :
    check_github_update fetchTag110 ghUrlOR local100 =
      .ok { hasUpdate := true, latestVersion := tag110 } ∧
    check_github_update fetchTag110 ghUrlOR local110 =
      .ok { hasUpdate := false, latestVersion := tag110 } ∧
    (∃ apiUrl json tag localv remotev,
      to_github_api_url ghUrlOR = .ok apiUrl ∧
      fetchTag110 apiUrl = .ok json ∧
      JsonDoc.find json tagKey = some (.jstr tag) ∧
      tag110 = tag ∧
      SemVer.parse local100 = .ok localv ∧
      SemVer.parse tag = .ok remotev ∧
      ((true = true) ↔
        (localv.major < remotev.major ∨ (localv.major = remotev.major ∧
          (localv.minor < remotev.minor ∨ (localv.minor = remotev.minor ∧
            localv.patch < remotev.patch)))))) :=
  ⟨by rfl, by rfl,
   check_github_update_ok_spec fetchTag110 ghUrlOR local100
     { hasUpdate := true, latestVersion := tag110 } (by rfl)⟩

-- ---------------------------------------------------------
-- Claim C10
-- ---------------------------------------------------------

/-- C10: every successful check returns a latestVersion string that the
version parser itself accepts, and which is hence non-empty. -/
theorem check_ok_latest_parseable (fetch : List Char → Except (List Char) JsonDoc)
    (repoUrl localVersion : List Char) (info : UpdateInfo)
    (h : check_github_update fetch repoUrl localVersion = .ok info) :
    (∃ sv, SemVer.parse info.latestVersion = .ok sv) ∧ info.latestVersion ≠ [] := by
  obtain ⟨_, _, tag, _, remotev, _, _, _, h4, _, h6, _⟩ :=
    check_ok_inversion fetch repoUrl localVersion info h
  rw [h4]
  exact ⟨⟨remotev, h6⟩, parse_ok_ne_nil tag remotev h6⟩

/-- Witness for C10 at a concrete completed check. -/
theorem check_ok_latest_parseable_witness :
    (∃ sv, SemVer.parse
        ({ hasUpdate := false, latestVersion := tag110 } : UpdateInfo).latestVersion =
      .ok sv) ∧
    ({ hasUpdate := false, latestVersion := tag110 } : UpdateInfo).latestVersion ≠ [] :=
  check_ok_latest_parseable fetchTag110 ghUrlOR local110
    { hasUpdate := false, latestVersion := tag110 } (by rfl)

-- ---------------------------------------------------------
-- Claim C2
-- ---------------------------------------------------------

/-- C2 counterexample: with local version not-a-version and a valid
repository URL, the fetch collaborator is invoked, and when the transport
fails the check fails with NetworkError rather than InvalidVersionFormat —
refuting that the check fails with InvalidVersionFormat without performing
any network fetch. -/
theorem check_local_invalid_fetch_cex :
    (check_github_update_run fetchTag110 ghUrlOR notAVersion).2 = true ∧
    (check_github_update_run fetchNetFail ghUrlOR notAVersion).1 =
      .error (.networkError (("HTTP request failed").data)) :=
  ⟨by rfl, by rfl⟩

/-- C2 amended: with a local version string admitting no match of the
version pattern, the check fails with InvalidVersionFormat provided the URL
normalizes, the fetch succeeds and a string tag is extracted — but only
after the fetch collaborator has been invoked, since the source fetches
first and parses the versions afterwards. -/
theorem check_local_invalid_after_fetch (fetch : List Char → Except (List Char) JsonDoc)
    (repoUrl apiUrl localVersion : List Char) (json : JsonDoc)
    (h1 : to_github_api_url repoUrl = .ok apiUrl)
    (h2 : fetch apiUrl = .ok json)
    (h3 : JsonDoc.isStr json tagKey = true)
    (h4 : semverSearch localVersion = none) :
    (check_github_update_run fetch repoUrl localVersion).2 = true ∧
    (check_github_update_run fetch repoUrl localVersion).1 =
      .error (.invalidVersionFormat (semverErrPfx ++ localVersion)) := by
  have hck := JsonDoc.containsKey_of_isStr json tagKey h3
  have hparse : SemVer.parse localVersion =
      .error (.invalidVersionFormat (semverErrPfx ++ localVersion)) := by
    unfold SemVer.parse
    rw [h4]
  constructor <;> simp [check_github_update_run, h1, h2, hck, h3, hparse]

/-- Witness for C2 at the not-a-version input of the specification. -/
theorem check_local_invalid_after_fetch_witness :
    (check_github_update_run fetchTag110 ghUrlOR notAVersion).2 = true ∧
    (check_github_update_run fetchTag110 ghUrlOR notAVersion).1 =
      .error (.invalidVersionFormat (semverErrPfx ++ notAVersion)) :=
  check_local_invalid_after_fetch fetchTag110 ghUrlOR apiUrlOR notAVersion jsonTag110
    (by rfl) (by rfl) (by rfl) (by rfl)

-- ---------------------------------------------------------
-- Claim C3
-- ---------------------------------------------------------

/-- C3: when the response JSON lacks a string-valued tag_name field, the
check fails with RemoteAPIError — carrying the message text when a
string-valued message field is present, and the generic no-valid-tag
diagnostic when the message field too is absent or not a string. -/
theorem check_missing_tag_error (fetch : List Char → Except (List Char) JsonDoc)
    (repoUrl apiUrl localVersion : List Char) (json : JsonDoc)
    (h1 : to_github_api_url repoUrl = .ok apiUrl)
    (h2 : fetch apiUrl = .ok json)
    (h3 : JsonDoc.isStr json tagKey = false) :
    (∀ m, JsonDoc.find json msgKey = some (.jstr m) →
      check_github_update fetch repoUrl localVersion =
        .error (.remoteAPIError (apiErrPfx ++ m))) ∧
    (JsonDoc.isStr json msgKey = false →
      check_github_update fetch repoUrl localVersion =
        .error (.remoteAPIError noTagMsg)) := by
  constructor
  · intro m hm
    have hmsgstr : JsonDoc.isStr json msgKey = true := by
      unfold JsonDoc.isStr
      rw [hm]
    have hmck : JsonDoc.containsKey json msgKey = true :=
      JsonDoc.containsKey_of_isStr json msgKey hmsgstr
    have hmget : JsonDoc.getStrVal json msgKey = m :=
      JsonDoc.getStrVal_eq json msgKey m hm
    simp [check_github_update, check_github_update_run, h1, h2, h3, hmsgstr, hmck, hmget]
  · intro hm
    simp [check_github_update, check_github_update_run, h1, h2, h3, hm]

/-- Witness for C3: a message-only response fails with the carried message,
and an empty response fails with the generic diagnostic. -/
theorem check_missing_tag_error_witness :
    check_github_update fetchMsgNF ghUrlOR local100 =
      .error (.remoteAPIError (apiErrPfx ++ (("Not Found").data))) ∧
    check_github_update fetchEmpty ghUrlOR local100 =
      .error (.remoteAPIError noTagMsg) :=
  ⟨(check_missing_tag_error fetchMsgNF ghUrlOR apiUrlOR local100 jsonMsgNF
      (by rfl) (by rfl) (by rfl)).1 (("Not Found").data) (by rfl),
   (check_missing_tag_error fetchEmpty ghUrlOR apiUrlOR local100 jsonEmpty
      (by rfl) (by rfl) (by rfl)).2 (by rfl)⟩

-- ---------------------------------------------------------
-- Claim C9
-- ---------------------------------------------------------

/-- C9: the CLI maps outcomes bit-exactly — fewer than two positional
arguments exits 1 with the usage text on the error stream; a completed
check exits 2 when an update is available and 0 otherwise, printing exactly
the three stdout lines; and any check error exits 3 printing the Error line
to the error stream. -/
theorem cli_outcome_spec (fetch : List Char → Except (List Char) JsonDoc)
    (args : List (List Char)) :
    (args.length < 2 → cliMain fetch args = ⟨1, [], usageLines⟩) ∧
    (∀ repo localv rest, args = repo :: localv :: rest →
      (∀ info, check_github_update fetch repo localv = .ok info →
        cliMain fetch args =
          ⟨if info.hasUpdate then 2 else 0,
           [ ("Local version:  ").data ++ localv,
             ("Remote version: ").data ++ info.latestVersion,
             ("Update:         ").data ++
               (if info.hasUpdate then ("YES").data else ("NO").data) ],
           []⟩) ∧
      (∀ e, check_github_update fetch repo localv = .error e →
        cliMain fetch args = ⟨3, [], [errPfx ++ e.message]⟩)) := by
  constructor
  · intro hlen
    rcases args with _ | ⟨a, _ | ⟨b, rest⟩⟩
    · rfl
    · rfl
    · exfalso
      simp only [List.length_cons] at hlen
      omega
  · intro repo localv rest hargs
    subst hargs
    constructor
    · intro info hok
      simp [cliMain, hok]
    · intro e herr
      simp [cliMain, herr]

/-- Witness for C9: the usage error, a completed check with an update, and
a failing check, at concrete inputs. -/
theorem cli_outcome_spec_witness :
    cliMain fetchTag110 [] = ⟨1, [], usageLines⟩ ∧
    cliMain fetchTag110 [ghUrlOR, local100] =
      ⟨2,
       [ ("Local version:  ").data ++ local100,
         ("Remote version: ").data ++ tag110,
         ("Update:         ").data ++ ("YES").data ],
       []⟩ ∧
    cliMain fetchNetFail [ghUrlOR, local100] =
      ⟨3, [], [errPfx ++ (("HTTP request failed").data)]⟩ :=
  ⟨(cli_outcome_spec fetchTag110 []).1 (by decide),
   ((cli_outcome_spec fetchTag110 [ghUrlOR, local100]).2 ghUrlOR local100 [] rfl).1
     { hasUpdate := true, latestVersion := tag110 } (by rfl),
   ((cli_outcome_spec fetchNetFail [ghUrlOR, local100]).2 ghUrlOR local100 [] rfl).2
     (.networkError (("HTTP request failed").data)) (by rfl)⟩

-- ---------------------------------------------------------
-- Claim C7
-- ---------------------------------------------------------

/-- The regex head written as an explicit cons. -/
theorem ghPfx_cons : ghPfx = 'h' :: ("ttps://github.com/").data := rfl

/-- The web-URL pattern matches at the start of a canonical web URL and
captures the owner and repo segments. -/
theorem ghMatchAt_canonical (o rr : List Char)
    (ho : o ≠ []) (hos : '/' ∉ o) (hrr : rr ≠ []) (hrs : '/' ∉ rr) :
    ghMatchAt (ghPfx ++ (o ++ '/' :: rr)) = some (o, rr) := by
  have hoc : ∀ c ∈ o, (!(c = '/')) = true := by
    intro c hc
    have hne : c ≠ '/' := fun he => hos (he ▸ hc)
    simp [hne]
  have hrc : ∀ c ∈ rr, (!(c = '/')) = true := by
    intro c hc
    have hne : c ≠ '/' := fun he => hrs (he ▸ hc)
    simp [hne]
  have hsp := takeWhile_append_of (fun c => !(c = '/')) o ('/' :: rr) hoc
    (by intro c cs hcc; injection hcc with hh _; subst hh; simp)
  obtain ⟨y, ys, rfl⟩ := List.exists_cons_of_ne_nil hrr
  obtain ⟨x, xs, rfl⟩ := List.exists_cons_of_ne_nil ho
  simp only [ghMatchAt, dropPfx_self, hsp.1, hsp.2,
    takeWhile_all_of (fun c => !(c = '/')) (y :: ys) hrc]
  simp

/-- Normalization of a canonical web URL not containing the API host
substring: the template is produced, with the repo segment stripped of a
trailing .git. -/
theorem to_github_api_url_web (o rr : List Char)
    (ho : o ≠ []) (hos : '/' ∉ o) (hrr : rr ≠ []) (hrs : '/' ∉ rr)
    (hmm : containsSub apiHost (ghPfx ++ (o ++ '/' :: rr)) = false) :
    to_github_api_url (ghPfx ++ (o ++ '/' :: rr)) =
      .ok (apiRoot ++ o ++ ("/").data ++
        (if hasSfx gitSfx rr then rr.take (rr.length - 4) else rr) ++ relTail) := by
  have hmatch := ghMatchAt_canonical o rr ho hos hrr hrs
  have hne : ghPfx ++ (o ++ '/' :: rr) ≠ [] := by
    rw [ghPfx_cons, List.cons_append]
    exact List.cons_ne_nil _ _
  have hsearch : ghSearch (ghPfx ++ (o ++ '/' :: rr)) = some (o, rr) :=
    ghSearch_of_matchAt _ _ hne hmatch
  simp [to_github_api_url, hmm, hsearch]

/-- C7 amended: for every owner and repo of one-or-more non-slash
characters, with the repo not ending in .git and the input (also in its
.git form) not containing the API host substring, both the plain web URL
and its .git form normalize to exactly the fixed API template. -/
theorem to_github_api_url_web_forms (o r : List Char)
    (ho : o ≠ []) (hos : '/' ∉ o) (hr : r ≠ []) (hrs : '/' ∉ r)
    (hm : containsSub apiHost (ghPfx ++ (o ++ '/' :: (r ++ gitSfx))) = false)
    (hg : hasSfx gitSfx r = false) :
    to_github_api_url (ghPfx ++ (o ++ '/' :: r)) =
      .ok (apiRoot ++ o ++ ("/").data ++ r ++ relTail) ∧
    to_github_api_url (ghPfx ++ (o ++ '/' :: (r ++ gitSfx))) =
      .ok (apiRoot ++ o ++ ("/").data ++ r ++ relTail) := by
  have hrw : ghPfx ++ (o ++ '/' :: (r ++ gitSfx)) =
      (ghPfx ++ (o ++ '/' :: r)) ++ gitSfx := by
    simp [List.append_assoc, List.cons_append]
  have hm2 : containsSub apiHost ((ghPfx ++ (o ++ '/' :: r)) ++ gitSfx) = false := by
    rw [← hrw]
    exact hm
  have hm1 : containsSub apiHost (ghPfx ++ (o ++ '/' :: r)) = false := by
    cases hcc : containsSub apiHost (ghPfx ++ (o ++ '/' :: r)) with
    | false => rfl
    | true =>
      exact absurd (containsSub_ext _ _ gitSfx hcc) (by simp only [hm2]; decide)
  constructor
  · have h1 := to_github_api_url_web o r ho hos hr hrs hm1
    rw [hg] at h1
    simpa using h1
  · have hrg : r ++ gitSfx ≠ [] := by
      intro hx
      rw [List.append_eq_nil] at hx
      exact absurd hx.2 (by decide)
    have hrgs : '/' ∉ r ++ gitSfx := by
      intro hx
      rw [List.mem_append] at hx
      rcases hx with hx | hx
      · exact hrs hx
      · revert hx
        decide
    have h2 := to_github_api_url_web o (r ++ gitSfx) ho hos hrg hrgs hm
    rw [hasSfx_append_self] at h2
    rw [if_pos rfl] at h2
    have htake : (r ++ gitSfx).take ((r ++ gitSfx).length - 4) = r := by
      have h4 : (r ++ gitSfx).length - 4 = r.length := by
        rw [List.length_append]
        have hg4 : gitSfx.length = 4 := by decide
        omega
      rw [h4]
      exact take_length_append r gitSfx
    rw [htake] at h2
    exact h2

/-- C7 counterexample: an owner segment containing the API host substring
makes the input hit the early API-host branch, which returns it unchanged
instead of producing the template, refuting the unrestricted
quantification over owners of non-slash characters. -/
theorem to_github_api_url_api_host_owner_cex :
    to_github_api_url (("https://github.com/api.github.com/r").data) =
      .ok (("https://github.com/api.github.com/r").data) ∧
    (("https://github.com/api.github.com/r").data) ≠
      apiRoot ++ (("api.github.com").data) ++ ("/").data ++ (("r").data) ++ relTail := by
  constructor
  · rfl
  · decide

/-- Witness for C7 at the one-character owner and repo. -/
theorem to_github_api_url_web_forms_witness :
    to_github_api_url (ghPfx ++ ((("o").data) ++ '/' :: (("r").data))) =
      .ok (apiRoot ++ (("o").data) ++ ("/").data ++ (("r").data) ++ relTail) ∧
    to_github_api_url (ghPfx ++ ((("o").data) ++ '/' :: ((("r").data) ++ gitSfx))) =
      .ok (apiRoot ++ (("o").data) ++ ("/").data ++ (("r").data) ++ relTail) :=
  to_github_api_url_web_forms (("o").data) (("r").data)
    (by decide) (by decide) (by decide) (by decide) (by decide) (by decide)

-- ---------------------------------------------------------
-- Claim C5
-- ---------------------------------------------------------

/-- C5 amended: for components within the host int range, the parser maps
major-dot-minor to the triple with patch zero and the three-component
numeral to the full triple; the lowercase-v input parses by the optional
prefix of the grammar and the uppercase-V input parses to the same triple
because the search skips the unrecognized leading character. -/
theorem parse_numerals_in_range (M N P : Nat)
    (hM : M ≤ intMax) (hN : N ≤ intMax) (hP : P ≤ intMax) :
    SemVer.parse (natDigits M ++ '.' :: natDigits N) = .ok ⟨M, N, 0⟩ ∧
    SemVer.parse (natDigits M ++ '.' :: (natDigits N ++ '.' :: natDigits P)) =
      .ok ⟨M, N, P⟩ ∧
    SemVer.parse (("v1.2.3").data) = .ok ⟨1, 2, 3⟩ ∧
    SemVer.parse (("V1.2.3").data) = .ok ⟨1, 2, 3⟩ := by
  have s1 : stoiDigits (natDigits M) = .ok M := by
    unfold stoiDigits
    rw [digitsVal_natDigits, if_pos hM]
  have s2 : stoiDigits (natDigits N) = .ok N := by
    unfold stoiDigits
    rw [digitsVal_natDigits, if_pos hN]
  have s3 : stoiDigits (natDigits P) = .ok P := by
    unfold stoiDigits
    rw [digitsVal_natDigits, if_pos hP]
  refine ⟨?_, ?_, by rfl, by rfl⟩
  · have hs := semverSearch_digits2 (natDigits M) (natDigits N)
      (natDigits_ne_nil M) (natDigits_all M) (natDigits_ne_nil N) (natDigits_all N)
    simp [SemVer.parse, hs, s1, s2]
  · have hs := semverSearch_digits3 (natDigits M) (natDigits N) (natDigits P)
      (natDigits_ne_nil M) (natDigits_all M) (natDigits_ne_nil N) (natDigits_all N)
      (natDigits_ne_nil P) (natDigits_all P)
    simp [SemVer.parse, hs, s1, s2, s3]

/-- C5 counterexample: at major 2147483648, one above the host int bound,
the numeral-dot-numeral input fails with the numeric-conversion failure
instead of yielding the component values, refuting the quantification over
all non-negative integers. -/
theorem parse_numeral_overflow_cex :
    SemVer.parse (("2147483648.0").data) =
      .error (.invalidVersionFormat stoiErrMsg) ∧
    ("2147483648.0").data = natDigits 2147483648 ++ '.' :: natDigits 0 := by
  constructor
  · rfl
  · set_option maxRecDepth 4000 in
    simp [natDigits, digitChar]

/-- Witness for C5 at the components one, two and three. -/
theorem parse_numerals_in_range_witness :
    (1 ≤ intMax ∧ 2 ≤ intMax ∧ 3 ≤ intMax) ∧
    (SemVer.parse (natDigits 1 ++ '.' :: natDigits 2) = .ok ⟨1, 2, 0⟩ ∧
     SemVer.parse (natDigits 1 ++ '.' :: (natDigits 2 ++ '.' :: natDigits 3)) =
       .ok ⟨1, 2, 3⟩ ∧
     SemVer.parse (("v1.2.3").data) = .ok ⟨1, 2, 3⟩ ∧
     SemVer.parse (("V1.2.3").data) = .ok ⟨1, 2, 3⟩) :=
  ⟨⟨by decide, by decide, by decide⟩,
   parse_numerals_in_range 1 2 3 (by decide) (by decide) (by decide)⟩
